import Mathlib

/-!
Verification of the urlshrt URL-shortening service core.

This file shallowly embeds the storage backends and the service layer of the
repository and proves (or refutes) the frozen specification claims about them:

* `JSONDB` — the JSON-file / in-memory backend (`internal/db/jsondb`,
  `internal/memorystorage`): an in-memory cache of directional maps plus
  user-ownership and soft-deletion maps.  Go maps are modelled as functions
  `String → Option β`; reads that use Go's zero-value convention use `getD`.
* `PG` — the relational backend (`internal/db/postgresdb`, raw-SQL variant):
  the two tables `short_to_full_url_map` and `users_urls` are modelled as
  lists of rows, and each method's SQL statement is given its standard
  relational semantics.
* `SVC` — the service layer (`internal/service/service.go`) instantiated over
  the `JSONDB` backend (transactions are no-ops in that backend).  The
  collision-resistant key generator (`uuid.New().String()`) is passed in as an
  explicit parameter.
* `Remover` — the deletion queue consumer loop (`internal/urlsremover`),
  modelled as a step function on the accumulated task batch; the outcome of
  the bulk soft-delete call is supplied by an oracle parameter.
-/

/-- Errors produced by the modelled code paths.  `errURLMarkedAsDeleted`
models `models.ErrURLMarkedAsDeleted`, `errConflict` models
`service.ErrConflict`, and `uniqueViolation` models a PostgreSQL
unique-constraint violation raised by a plain `INSERT`. -/
inductive GoError where
  | errURLMarkedAsDeleted
  | errConflict
  | uniqueViolation
  deriving DecidableEq, Repr

/-- `user.User` (only the ID field is relevant to the claims). -/
structure User where
  ID : String
  deriving DecidableEq, Repr

/-- `models.UserURL`. -/
structure UserURL where
  ShortURL : String
  OriginalURL : String
  deriving DecidableEq, Repr

namespace JSONDB

/-- `jsondb.CacheStruct`: the in-memory state of the JSON-file backend
(also the in-memory backend, which wraps the same structure).  Each Go map
is modelled as a function to `Option`. -/
structure Cache where
  ShortToFull : String → Option String
  FullToShort : String → Option String
  Users : String → Option User
  UsersIdsToUrlsMap : String → Option (List String)
  UrlsToUsersIdsMap : String → Option (List String)
  UrlsToIsDeletedMap : String → Option Bool

/-- The freshly initialised cache (all maps empty), as produced by
`memorystorage.New` / an empty DB file. -/
def emptyCache : Cache where
  ShortToFull := fun _ => none
  FullToShort := fun _ => none
  Users := fun _ => none
  UsersIdsToUrlsMap := fun _ => none
  UrlsToUsersIdsMap := fun _ => none
  UrlsToIsDeletedMap := fun _ => none

/-- Pointwise map update, modelling Go's `m[k] = v`. -/
def upd (m : String → Option β) (k : String) (v : β) : String → Option β :=
  fun k' => if k' = k then some v else m k'

@[simp] theorem upd_same (m : String → Option β) (k : String) (v : β) :
    upd m k v k = some v := by simp [upd]

@[simp] theorem upd_ne (m : String → Option β) {k k' : String} (v : β) (h : k' ≠ k) :
    upd m k v k' = m k' := by simp [upd, h]

/-- `JSONDB.InsertURLMapping`: store the mapping in both directional maps. -/
def InsertURLMapping (st : Cache) (short full : String) : Cache :=
  { st with
    ShortToFull := upd st.ShortToFull short full
    FullToShort := upd st.FullToShort full short }

/-- `JSONDB.SaveNewFullsAndShorts`: insert every pair of the map
(modelled as a list of `(full, short)` pairs) via `InsertURLMapping`. -/
def SaveNewFullsAndShorts (st : Cache) (unexistentFullsToShortsMap : List (String × String)) :
    Cache :=
  unexistentFullsToShortsMap.foldl (fun st p => InsertURLMapping st p.2 p.1) st

/-- One iteration of the loop body of `JSONDB.SaveUserUrls`: append `url` to
the user's list and `userID` to the url's owner list (creating empty lists
first when the key is absent, exactly as the Go code does). -/
def saveUserUrlsStep (userID : String) (st : Cache) (url : String) : Cache :=
  let st1 := { st with
    UsersIdsToUrlsMap :=
      upd st.UsersIdsToUrlsMap userID ((st.UsersIdsToUrlsMap userID).getD [] ++ [url]) }
  { st1 with
    UrlsToUsersIdsMap :=
      upd st1.UrlsToUsersIdsMap url ((st1.UrlsToUsersIdsMap url).getD [] ++ [userID]) }

/-- `JSONDB.SaveUserUrls`: unconditionally append each url/owner pair. -/
def SaveUserUrls (st : Cache) (userID : String) (urls : List String) : Cache :=
  urls.foldl (saveUserUrlsStep userID) st

/-- One iteration of the inner loop of `JSONDB.RemoveUsersUrls`: look up the
full URL of `shortURL` (Go zero value `""` when absent) and set its deleted
flag when `userID` is among its owners. -/
def removeUsersUrlsStep (userID : String) (st : Cache) (shortURL : String) : Cache :=
  let fullURL := (st.ShortToFull shortURL).getD ("")
  match st.UrlsToUsersIdsMap fullURL with
  | some usersIds =>
      if userID ∈ usersIds then
        { st with UrlsToIsDeletedMap := upd st.UrlsToIsDeletedMap fullURL true }
      else st
  | none => st

/-- `JSONDB.RemoveUsersUrls`: for every requested `(userID, shortURLs)` pair,
mark the corresponding full URLs deleted when the user is a verified owner. -/
def RemoveUsersUrls (st : Cache) (usersURLs : List (String × List String)) : Cache :=
  usersURLs.foldl (fun st p => p.2.foldl (removeUsersUrlsStep p.1) st) st

/-- `JSONDB.FindFullByShort`: comma-ok read of `ShortToFull` (zero value `""`
when absent), then the deleted-flag check on the full URL. -/
def FindFullByShort (st : Cache) (short : String) : String × Bool × Option GoError :=
  let fullFound : String × Bool :=
    match st.ShortToFull short with
    | some f => (f, true)
    | none => ("", false)
  let err : Option GoError :=
    match st.UrlsToIsDeletedMap fullFound.1 with
    | some true => some .errURLMarkedAsDeleted
    | _ => none
  (fullFound.1, fullFound.2, err)

/-- `JSONDB.FindShortByFull`: comma-ok read of `FullToShort`. -/
def FindShortByFull (st : Cache) (full : String) : String × Bool :=
  match st.FullToShort full with
  | some s => (s, true)
  | none => ("", false)

/-- `JSONDB.IsShortExists`. -/
def IsShortExists (st : Cache) (short : String) : Bool :=
  (st.ShortToFull short).isSome

/-- `JSONDB.GetUserUrls`: list the user's urls, formatting each short key
(the formatter defaults to the identity when `nil`, as in the source).
Note the source never consults `UrlsToIsDeletedMap` here. -/
def GetUserUrls (st : Cache) (userID : String) (shortURLFormatter : Option (String → String)) :
    List UserURL :=
  let formatter := shortURLFormatter.getD id
  match st.UsersIdsToUrlsMap userID with
  | some urls =>
      urls.map (fun url => ⟨formatter ((st.FullToShort url).getD ("")), url⟩)
  | none => []

end JSONDB

namespace PG

/-- A row of the `short_to_full_url_map` table (`"full"` primary key,
`short` unique, `is_deleted` defaulting to false). -/
structure Row where
  full : String
  short : String
  is_deleted : Bool
  deriving DecidableEq, Repr

/-- The relational backend's state: the `short_to_full_url_map` table and the
`users_urls` ownership table (rows `(user_id, url)`). -/
structure PgState where
  urls : List Row
  users_urls : List (String × String)
  deriving DecidableEq, Repr

/-- `postgresdb.getUsersUrlsForRemoving`: flatten the request map into
`(userID, shortURL)` pairs. -/
def getUsersUrlsForRemoving (usersURLs : List (String × List String)) :
    List (String × String) :=
  usersURLs.foldl (fun acc p => acc ++ p.2.map (fun url => (p.1, url))) []

/-- The `WHERE` condition of the `UPDATE … FROM users_urls` statement in
`PostgresDB.RemoveUsersUrls`: the row is updated when some ownership row
matches its full URL and the `(user_id, short)` pair is among the request
pairs. -/
def markCond (users_urls : List (String × String)) (pairs : List (String × String))
    (r : Row) : Bool :=
  users_urls.any (fun uu => uu.2 == r.full && pairs.any (fun p => p.1 == uu.1 && p.2 == r.short))

/-- `PostgresDB.RemoveUsersUrls`: bulk soft-delete; sets `is_deleted = true`
exactly on the rows satisfying the join condition.  Empty request is an
early-return no-op. -/
def RemoveUsersUrls (st : PgState) (usersURLs : List (String × List String)) : PgState :=
  let pairs := getUsersUrlsForRemoving usersURLs
  if pairs = [] then st
  else
    { st with
      urls := st.urls.map (fun r =>
        if markCond st.users_urls pairs r then { r with is_deleted := true } else r) }

/-- `PostgresDB.SaveUserUrls`: `INSERT … ON CONFLICT (user_id, url) DO UPDATE`
with the same values — the net effect is an idempotent upsert of the
ownership rows. -/
def SaveUserUrls (st : PgState) (userID : String) (urls : List String) : PgState :=
  { st with
    users_urls := urls.foldl (fun acc url =>
      if (userID, url) ∈ acc then acc else acc ++ [(userID, url)]) st.users_urls }

/-- `PostgresDB.GetUserUrls` (raw-SQL variant): join of the two tables on
`users_urls.url = short_to_full_url_map.full` with the given user id; note
that the query has no `is_deleted` filter. -/
def GetUserUrls (st : PgState) (userID : String)
    (shortURLFormatter : Option (String → String)) : List UserURL :=
  let formatter := shortURLFormatter.getD id
  (st.urls.filter (fun r => st.users_urls.any (fun uu => uu.1 == userID && uu.2 == r.full))).map
    (fun r => ⟨formatter r.short, r.full⟩)

/-- `PostgresDB.SaveNewFullsAndShorts` (raw-SQL variant): a plain multi-value
`INSERT INTO short_to_full_url_map ("short", "full") VALUES …` with no
`ON CONFLICT` clause.  The statement fails with a unique-constraint violation
when an inserted full URL (primary key) or short key (unique index) already
exists, or is duplicated within the batch; empty input is an early-return
no-op. -/
def SaveNewFullsAndShorts (st : PgState) (newURLs : List (String × String)) :
    Except GoError PgState :=
  if newURLs = [] then .ok st
  else
    let rows := newURLs.map (fun p => Row.mk p.1 p.2 false)
    if rows.any (fun r => st.urls.any (fun r0 => r0.full == r.full || r0.short == r.short)) = true ∨
        ¬ (rows.map Row.full).Nodup ∨ ¬ (rows.map Row.short).Nodup then
      .error .uniqueViolation
    else
      .ok { st with urls := st.urls ++ rows }

/-- `PostgresDB.InsertURLMapping`: single-row `INSERT` into
`short_to_full_url_map`, failing on a uniqueness violation. -/
def InsertURLMapping (st : PgState) (short full : String) : Except GoError PgState :=
  if st.urls.any (fun r0 => r0.full == full || r0.short == short) then
    .error .uniqueViolation
  else
    .ok { st with urls := st.urls ++ [Row.mk full short false] }

/-- `PostgresDB.FindFullByShort`: `SELECT "full", is_deleted … WHERE short = $1`;
no row yields `("", false, nil)`, a deleted row yields the full URL together
with `found = true` and `models.ErrURLMarkedAsDeleted`. -/
def FindFullByShort (st : PgState) (short : String) : String × Bool × Option GoError :=
  match st.urls.find? (fun r => r.short == short) with
  | none => ("", false, none)
  | some r => (r.full, true, if r.is_deleted then some .errURLMarkedAsDeleted else none)

/-- `PostgresDB.FindShortByFull`. -/
def FindShortByFull (st : PgState) (full : String) : String × Bool :=
  match st.urls.find? (fun r => r.full == full) with
  | none => ("", false)
  | some r => (r.short, true)

end PG

namespace SVC

open JSONDB

/-- Go `strings.TrimRight(s, "/")`: remove all trailing `'/'` characters. -/
def trimRightSlash (s : String) : String :=
  String.mk ((s.data.reverse.dropWhile (fun c => c = '/')).reverse)

/-- Go `strings.TrimPrefix(s, p)`: drop `p` from the front when it is a
prefix, otherwise return `s` unchanged. -/
def trimPrefixGo (s p : String) : String :=
  if p.data.isPrefixOf s.data then String.mk (s.data.drop p.data.length) else s

/-- `Service.GetShortURL`: prefix the short key with the configured base. -/
def GetShortURL (shortURLBase shortKey : String) : String :=
  shortURLBase ++ "/" ++ shortKey

/-- `Service.GetShortURLKey`: strip the (right-slash-trimmed) base and then a
single leading slash from a short URL; empty short URL or empty base yields
the empty string. -/
def GetShortURLKey (shortURLBase shortURL : String) : String :=
  if shortURL = "" ∨ shortURLBase = "" then ("")
  else trimPrefixGo (trimPrefixGo shortURL (trimRightSlash shortURLBase)) "/"

/-- `Service.ShortenURL` instantiated over the JSONDB backend (whose
transaction methods are no-ops): look up an existing short key for the URL;
on a hit remember the `ErrConflict` signal and reuse the key, otherwise
insert a fresh mapping under `genKey` (modelling `uuid.New().String()`);
in both branches save the ownership row, and return the formatted short URL
with the conflict signal.  Result: (new state, returned string, error). -/
def ShortenURL (st : Cache) (shortURLBase urlToShort userID genKey : String) :
    Cache × String × Option GoError :=
  let sf := FindShortByFull st urlToShort
  if sf.2 then
    let st' := SaveUserUrls st userID [urlToShort]
    (st', GetShortURL shortURLBase sf.1, some .errConflict)
  else
    let short := genKey
    let st1 := InsertURLMapping st short urlToShort
    let st' := SaveUserUrls st1 userID [urlToShort]
    (st', GetShortURL shortURLBase short, none)

/-- `Service.GetOriginalURL` over the JSONDB backend: propagate a lookup
error, map not-found to `("", nil)`, and return the full URL otherwise. -/
def GetOriginalURL (st : Cache) (short : String) : String × Option GoError :=
  let r := FindFullByShort st short
  match r.2.2 with
  | some e => ("", some e)
  | none => if r.2.1 then (r.1, none) else ("", none)

end SVC

namespace Remover

/-- `urlsremover.task`. -/
structure Task where
  userID : String
  urlToDelete : String
  deriving DecidableEq, Repr

/-- `URLsRemover.collectUrlsByUser`: group the accumulated tasks by user id,
preserving first-seen order of users and arrival order of urls. -/
def collectUrlsByUser (tasks : List Task) : List (String × List String) :=
  tasks.foldl (fun acc t =>
    if acc.any (fun p => p.1 == t.userID) then
      acc.map (fun p => if p.1 == t.userID then (p.1, p.2 ++ [t.urlToDelete]) else p)
    else acc ++ [(t.userID, [t.urlToDelete])]) []

/-- The events the consumer loop of `URLsRemover.Run` can wake up on
(cancellation simply exits the loop and is not modelled as a state change). -/
inductive Event where
  | recv (t : Task)
  | tick

/-- One iteration of the consumer loop of `URLsRemover.Run`.  `remove` is the
outcome of `db.RemoveUsersUrls` on the grouped batch.  A received task is
appended to the batch.  On a tick, an empty batch is skipped; otherwise the
batch is flushed: on success (`none`) the batch is cleared (`tasks = nil`),
on failure the error is pushed to the error channel and — because the
source's `continue` skips the `tasks = nil` line — the batch is left
unchanged.
Result: (new batch, errors pushed to the error channel). -/
def step (remove : List (String × List String) → Option GoError)
    (tasks : List Task) : Event → List Task × List GoError
  | .recv t => (tasks ++ [t], [])
  | .tick =>
      if tasks = [] then (tasks, [])
      else
        match remove (collectUrlsByUser tasks) with
        | some e => (tasks, [e])
        | none => ([], [])

end Remover

namespace JSONDB

/-- The store operations of the file/in-memory backend that claim C9
quantifies over. -/
inductive JSONOp where
  | insertURLMapping (short full : String)
  | saveNewFullsAndShorts (m : List (String × String))
  | saveUserUrls (userID : String) (urls : List String)
  | removeUsersUrls (m : List (String × List String))

/-- Apply one store operation to the cache. -/
def applyOp (st : Cache) : JSONOp → Cache
  | .insertURLMapping s f => InsertURLMapping st s f
  | .saveNewFullsAndShorts m => SaveNewFullsAndShorts st m
  | .saveUserUrls uid urls => SaveUserUrls st uid urls
  | .removeUsersUrls m => RemoveUsersUrls st m

/-- Apply a sequence of store operations to the cache. -/
def applyOps (st : Cache) (ops : List JSONOp) : Cache := ops.foldl applyOp st

/-- The bidirectional-map invariant of claim C9: the `ShortToFull` and
`FullToShort` maps are mutual inverses — every short key maps to a full URL
whose reverse entry points back to that same short key, and vice versa. -/
def Inverse (st : Cache) : Prop :=
  (∀ s f, st.ShortToFull s = some f → st.FullToShort f = some s) ∧
  (∀ f s, st.FullToShort f = some s → st.ShortToFull s = some f)

/-- Freshness of a batch of `(full, short)` pairs: as `SaveNewFullsAndShorts`
inserts them left to right, each inserted short and full key is new to the
store at its turn. -/
inductive FreshPairs : Cache → List (String × String) → Prop
  | nil (st : Cache) : FreshPairs st []
  | cons (st : Cache) (p : String × String) (ps : List (String × String)) :
      st.ShortToFull p.2 = none → st.FullToShort p.1 = none →
      FreshPairs (InsertURLMapping st p.2 p.1) ps → FreshPairs st (p :: ps)

/-- Freshness side condition of an operation: inserts only introduce short
and full keys that are absent from the store; the other operations are
unconstrained. -/
def OpFresh (st : Cache) : JSONOp → Prop
  | .insertURLMapping s f => st.ShortToFull s = none ∧ st.FullToShort f = none
  | .saveNewFullsAndShorts m => FreshPairs st m
  | .saveUserUrls _ _ => True
  | .removeUsersUrls _ => True

/-- A sequence of operations each of which satisfies its freshness side
condition in the state where it runs. -/
inductive GoodOps : Cache → List JSONOp → Prop
  | nil (st : Cache) : GoodOps st []
  | cons (st : Cache) (op : JSONOp) (ops : List JSONOp) :
      OpFresh st op → GoodOps (applyOp st op) ops → GoodOps st (op :: ops)

end JSONDB

namespace JSONDB

theorem removeUsersUrls_single_marks (st : Cache) (short full userID : String)
    (h1 : st.ShortToFull short = some full)
    (h2 : userID ∈ (st.UrlsToUsersIdsMap full).getD []) :
    RemoveUsersUrls st [(userID, [short])]
      = { st with UrlsToIsDeletedMap := upd st.UrlsToIsDeletedMap full true } := by
  obtain ⟨ids, hm, hmem⟩ : ∃ ids, st.UrlsToUsersIdsMap full = some ids ∧ userID ∈ ids := by
    cases hm : st.UrlsToUsersIdsMap full with
    | none => rw [hm] at h2; simp at h2
    | some ids =>
        refine ⟨ids, rfl, ?_⟩
        rw [hm] at h2
        simpa using h2
  simp [RemoveUsersUrls, removeUsersUrlsStep, h1, hm, hmem]

end JSONDB

namespace JSONDB

theorem saveUserUrlsStep_preserves (uid : String) (st : Cache) (u : String) :
    (saveUserUrlsStep uid st u).ShortToFull = st.ShortToFull
    ∧ (saveUserUrlsStep uid st u).FullToShort = st.FullToShort
    ∧ (saveUserUrlsStep uid st u).UrlsToIsDeletedMap = st.UrlsToIsDeletedMap
    ∧ (saveUserUrlsStep uid st u).Users = st.Users :=
  ⟨rfl, rfl, rfl, rfl⟩

theorem saveUserUrls_cons (st : Cache) (uid u : String) (rest : List String) :
    SaveUserUrls st uid (u :: rest) = SaveUserUrls (saveUserUrlsStep uid st u) uid rest := rfl

theorem saveUserUrls_preserves (uid : String) (urls : List String) (st : Cache) :
    (SaveUserUrls st uid urls).ShortToFull = st.ShortToFull
    ∧ (SaveUserUrls st uid urls).FullToShort = st.FullToShort
    ∧ (SaveUserUrls st uid urls).UrlsToIsDeletedMap = st.UrlsToIsDeletedMap
    ∧ (SaveUserUrls st uid urls).Users = st.Users := by
  induction urls generalizing st with
  | nil => exact ⟨rfl, rfl, rfl, rfl⟩
  | cons u rest ih =>
      have hstep := saveUserUrlsStep_preserves uid st u
      have hrest := ih (saveUserUrlsStep uid st u)
      rw [saveUserUrls_cons]
      exact ⟨hrest.1.trans hstep.1, hrest.2.1.trans hstep.2.1,
        hrest.2.2.1.trans hstep.2.2.1, hrest.2.2.2.trans hstep.2.2.2⟩

theorem removeUsersUrlsStep_preserves (uid : String) (st : Cache) (s : String) :
    (removeUsersUrlsStep uid st s).ShortToFull = st.ShortToFull
    ∧ (removeUsersUrlsStep uid st s).FullToShort = st.FullToShort
    ∧ (removeUsersUrlsStep uid st s).UsersIdsToUrlsMap = st.UsersIdsToUrlsMap
    ∧ (removeUsersUrlsStep uid st s).UrlsToUsersIdsMap = st.UrlsToUsersIdsMap := by
  simp only [removeUsersUrlsStep]
  cases hm : st.UrlsToUsersIdsMap ((st.ShortToFull s).getD ("")) with
  | none => exact ⟨rfl, rfl, rfl, rfl⟩
  | some ids => by_cases h : uid ∈ ids <;> simp [h]

theorem removeUsersUrls_inner_preserves (uid : String) (ss : List String) (st : Cache) :
    (ss.foldl (removeUsersUrlsStep uid) st).ShortToFull = st.ShortToFull
    ∧ (ss.foldl (removeUsersUrlsStep uid) st).FullToShort = st.FullToShort
    ∧ (ss.foldl (removeUsersUrlsStep uid) st).UsersIdsToUrlsMap = st.UsersIdsToUrlsMap
    ∧ (ss.foldl (removeUsersUrlsStep uid) st).UrlsToUsersIdsMap = st.UrlsToUsersIdsMap := by
  induction ss generalizing st with
  | nil => exact ⟨rfl, rfl, rfl, rfl⟩
  | cons s rest ih =>
      have hstep := removeUsersUrlsStep_preserves uid st s
      have hrest := ih (removeUsersUrlsStep uid st s)
      rw [List.foldl_cons]
      exact ⟨hrest.1.trans hstep.1, hrest.2.1.trans hstep.2.1,
        hrest.2.2.1.trans hstep.2.2.1, hrest.2.2.2.trans hstep.2.2.2⟩

theorem removeUsersUrls_cons (st : Cache) (p : String × List String)
    (rest : List (String × List String)) :
    RemoveUsersUrls st (p :: rest)
      = RemoveUsersUrls (p.2.foldl (removeUsersUrlsStep p.1) st) rest := rfl

theorem removeUsersUrls_preserves (m : List (String × List String)) (st : Cache) :
    (RemoveUsersUrls st m).ShortToFull = st.ShortToFull
    ∧ (RemoveUsersUrls st m).FullToShort = st.FullToShort
    ∧ (RemoveUsersUrls st m).UsersIdsToUrlsMap = st.UsersIdsToUrlsMap
    ∧ (RemoveUsersUrls st m).UrlsToUsersIdsMap = st.UrlsToUsersIdsMap := by
  induction m generalizing st with
  | nil => exact ⟨rfl, rfl, rfl, rfl⟩
  | cons p rest ih =>
      have hstep := removeUsersUrls_inner_preserves p.1 p.2 st
      have hrest := ih (p.2.foldl (removeUsersUrlsStep p.1) st)
      rw [removeUsersUrls_cons]
      exact ⟨hrest.1.trans hstep.1, hrest.2.1.trans hstep.2.1,
        hrest.2.2.1.trans hstep.2.2.1, hrest.2.2.2.trans hstep.2.2.2⟩

theorem removeUsersUrls_single_nonowner (st : Cache) (short A : String)
    (hA : A ∉ (st.UrlsToUsersIdsMap ((st.ShortToFull short).getD (""))).getD []) :
    RemoveUsersUrls st [(A, [short])] = st := by
  simp only [RemoveUsersUrls, List.foldl_cons, List.foldl_nil]
  simp only [removeUsersUrlsStep]
  cases hm : st.UrlsToUsersIdsMap ((st.ShortToFull short).getD ("")) with
  | none => rfl
  | some ids =>
      have hnot : A ∉ ids := by rw [hm] at hA; simpa using hA
      simp [hnot]

end JSONDB

namespace PG

theorem find?_short_map (l : List Row) (g : Row → Row)
    (hg : ∀ r, (g r).short = r.short) (s : String) :
    (l.map g).find? (fun r => r.short == s) = (l.find? (fun r => r.short == s)).map g := by
  induction l with
  | nil => rfl
  | cons a l ih =>
      cases h : (a.short == s) with
      | true => simp [List.find?_cons, hg a, h]
      | false => simp [List.find?_cons, hg a, h, ih]

end PG

/-- C1: after a successful `RemoveUsersUrls` call by a verified owner,
`FindFullByShort` on the removed short key returns the original full URL,
`found = true` and the distinct `ErrURLMarkedAsDeleted` signal — not a
not-found result — and the mapping is still present in the store, in both the
JSON/in-memory backend and the relational backend. -/
theorem claim1_findFullByShort_after_remove
    (st : JSONDB.Cache) (short full userID : String)
    (stp : PG.PgState) (r : PG.Row) (shortP userP : String)
    (h1 : st.ShortToFull short = some full)
    (h2 : userID ∈ (st.UrlsToUsersIdsMap full).getD [])
    (hfind : stp.urls.find? (fun row => row.short == shortP) = some r)
    (hown : (userP, r.full) ∈ stp.users_urls) :
    (JSONDB.FindFullByShort (JSONDB.RemoveUsersUrls st [(userID, [short])]) short
        = (full, true, some GoError.errURLMarkedAsDeleted)
      ∧ (JSONDB.RemoveUsersUrls st [(userID, [short])]).ShortToFull short = some full)
    ∧ PG.FindFullByShort (PG.RemoveUsersUrls stp [(userP, [shortP])]) shortP
        = (r.full, true, some GoError.errURLMarkedAsDeleted) := by
  constructor
  · rw [JSONDB.removeUsersUrls_single_marks st short full userID h1 h2]
    constructor
    · simp [JSONDB.FindFullByShort, h1, JSONDB.upd]
    · exact h1
  · have hshort : r.short = shortP := by
      have := List.find?_some hfind
      simpa using this
    have hpairs : PG.getUsersUrlsForRemoving [(userP, [shortP])] = [(userP, shortP)] := by
      simp [PG.getUsersUrlsForRemoving]
    have hmark : PG.markCond stp.users_urls [(userP, shortP)] r = true := by
      simp only [PG.markCond, List.any_eq_true]
      exact ⟨(userP, r.full), hown, by simp [hshort]⟩
    set g : PG.Row → PG.Row := fun row =>
      if PG.markCond stp.users_urls [(userP, shortP)] row then { row with is_deleted := true }
      else row with hg
    have hgshort : ∀ row, (g row).short = row.short := by
      intro row
      by_cases h : PG.markCond stp.users_urls [(userP, shortP)] row = true
      · simp [hg, h]
      · simp [hg, h]
    have hrem : PG.RemoveUsersUrls stp [(userP, [shortP])]
        = { stp with urls := stp.urls.map g } := by
      rw [PG.RemoveUsersUrls]
      simp only [hpairs]
      rfl
    rw [hrem, PG.FindFullByShort]
    rw [PG.find?_short_map stp.urls g hgshort shortP, hfind]
    have hgr : g r = { r with is_deleted := true } := by simp [hg, hmark]
    simp [hgr]

namespace JSONDB

theorem findFullByShort_eq_of (st : Cache) (s f : String)
    (hst : st.ShortToFull s = some f) (hdel : st.UrlsToIsDeletedMap f ≠ some true) :
    FindFullByShort st s = (f, true, none) := by
  simp only [FindFullByShort, hst]

theorem saveUserUrls_single_mem (st : Cache) (uid u : String) :
    uid ∈ ((SaveUserUrls st uid [u]).UrlsToUsersIdsMap u).getD [] := by
  simp [SaveUserUrls, saveUserUrlsStep, upd]

end JSONDB

namespace SVC

theorem shortenURL_not_found (st : JSONDB.Cache) (base u userID genKey : String)
    (h : st.FullToShort u = none) :
    ShortenURL st base u userID genKey
      = (JSONDB.SaveUserUrls (JSONDB.InsertURLMapping st genKey u) userID [u],
          GetShortURL base genKey, none) := by
  have hsf : JSONDB.FindShortByFull st u = ("", false) := by
    simp [JSONDB.FindShortByFull, h]
  simp [ShortenURL, hsf]

theorem shortenURL_found (st : JSONDB.Cache) (base u userID genKey k : String)
    (h : st.FullToShort u = some k) :
    ShortenURL st base u userID genKey
      = (JSONDB.SaveUserUrls st userID [u], GetShortURL base k,
          some GoError.errConflict) := by
  have hsf : JSONDB.FindShortByFull st u = (k, true) := by
    simp [JSONDB.FindShortByFull, h]
  simp [ShortenURL, hsf]

end SVC

/-- C2: round-trip — shortening a URL `u` that is not yet mapped assigns the
generated short key, reports no conflict, and a subsequent redirect lookup of
that key (both `FindFullByShort` and `GetOriginalURL`) returns exactly `u`
with `found = true` and no error. -/
theorem claim2_shorten_roundtrip
    (st : JSONDB.Cache) (base u userID genKey : String)
    (hunmapped : st.FullToShort u = none)
    (hnotdel : st.UrlsToIsDeletedMap u ≠ some true) :
    (SVC.ShortenURL st base u userID genKey).2.1 = SVC.GetShortURL base genKey
    ∧ (SVC.ShortenURL st base u userID genKey).2.2 = none
    ∧ JSONDB.FindFullByShort (SVC.ShortenURL st base u userID genKey).1 genKey
        = (u, true, none)
    ∧ SVC.GetOriginalURL (SVC.ShortenURL st base u userID genKey).1 genKey = (u, none) := by
  have hshorten := SVC.shortenURL_not_found st base u userID genKey hunmapped
  set st' := JSONDB.SaveUserUrls (JSONDB.InsertURLMapping st genKey u) userID [u] with hst'
  have hST : st'.ShortToFull genKey = some u := by
    rw [hst', (JSONDB.saveUserUrls_preserves userID [u] _).1]
    simp [JSONDB.InsertURLMapping]
  have hDel : st'.UrlsToIsDeletedMap u = st.UrlsToIsDeletedMap u := by
    rw [hst', (JSONDB.saveUserUrls_preserves userID [u] _).2.2.1]
    rfl
  have hfind : JSONDB.FindFullByShort st' genKey = (u, true, none) :=
    JSONDB.findFullByShort_eq_of st' genKey u hST (by rw [hDel]; exact hnotdel)
  refine ⟨?_, ?_, ?_, ?_⟩
  · rw [hshorten]
  · rw [hshorten]
  · rw [hshorten]
    exact hfind
  · rw [hshorten]
    show SVC.GetOriginalURL st' genKey = (u, none)
    simp [SVC.GetOriginalURL, hfind]

/-- Witness for C2 on the empty store. -/
theorem claim2_witness :
    (SVC.ShortenURL JSONDB.emptyCache ("http://localhost:8080") ("https://example.com/1")
        ("U1") ("k1")).2.1
      = SVC.GetShortURL ("http://localhost:8080") ("k1")
    ∧ (SVC.ShortenURL JSONDB.emptyCache ("http://localhost:8080") ("https://example.com/1")
        ("U1") ("k1")).2.2 = none
    ∧ JSONDB.FindFullByShort
        (SVC.ShortenURL JSONDB.emptyCache ("http://localhost:8080") ("https://example.com/1")
          ("U1") ("k1")).1 ("k1")
        = (("https://example.com/1"), true, none)
    ∧ SVC.GetOriginalURL
        (SVC.ShortenURL JSONDB.emptyCache ("http://localhost:8080") ("https://example.com/1")
          ("U1") ("k1")).1 ("k1")
        = (("https://example.com/1"), none) :=
  claim2_shorten_roundtrip JSONDB.emptyCache ("http://localhost:8080")
    ("https://example.com/1") ("U1") ("k1") (by decide) (by decide)

/-- C3: uniqueness and conflict signalling — shortening two distinct unmapped
URLs (each with a key that is fresh at its turn) assigns distinct short keys
with no conflict signal, and shortening the first URL again returns the very
same short key together with the `ErrConflict` signal while still saving the
ownership row for the requesting user. -/
theorem claim3_uniqueness_and_conflict
    (st0 : JSONDB.Cache) (base u1 u2 U1 U2 U3 g1 g2 g3 : String)
    (h1 : st0.FullToShort u1 = none)
    (h2 : st0.FullToShort u2 = none)
    (hne : u1 ≠ u2)
    (hfresh2 : (SVC.ShortenURL st0 base u1 U1 g1).1.ShortToFull g2 = none) :
    (SVC.ShortenURL st0 base u1 U1 g1).2 = (SVC.GetShortURL base g1, none)
    ∧ (SVC.ShortenURL (SVC.ShortenURL st0 base u1 U1 g1).1 base u2 U2 g2).2
        = (SVC.GetShortURL base g2, none)
    ∧ g1 ≠ g2
    ∧ (SVC.ShortenURL
          (SVC.ShortenURL (SVC.ShortenURL st0 base u1 U1 g1).1 base u2 U2 g2).1
          base u1 U3 g3).2
        = (SVC.GetShortURL base g1, some GoError.errConflict)
    ∧ U3 ∈ ((SVC.ShortenURL
          (SVC.ShortenURL (SVC.ShortenURL st0 base u1 U1 g1).1 base u2 U2 g2).1
          base u1 U3 g3).1.UrlsToUsersIdsMap u1).getD [] := by
  have hshorten1 := SVC.shortenURL_not_found st0 base u1 U1 g1 h1
  set st1 := JSONDB.SaveUserUrls (JSONDB.InsertURLMapping st0 g1 u1) U1 [u1] with hst1
  have hproj1 : (SVC.ShortenURL st0 base u1 U1 g1).1 = st1 := by rw [hshorten1]
  have hst1ft : st1.FullToShort u2 = none := by
    rw [hst1, (JSONDB.saveUserUrls_preserves U1 [u1] _).2.1]
    show JSONDB.upd st0.FullToShort u1 g1 u2 = none
    rw [JSONDB.upd_ne st0.FullToShort g1 (fun hc => hne hc.symm)]
    exact h2
  have hst1stf : st1.ShortToFull g1 = some u1 := by
    rw [hst1, (JSONDB.saveUserUrls_preserves U1 [u1] _).1]
    simp [JSONDB.InsertURLMapping]
  have hshorten2 := SVC.shortenURL_not_found st1 base u2 U2 g2 hst1ft
  set st2 := JSONDB.SaveUserUrls (JSONDB.InsertURLMapping st1 g2 u2) U2 [u2] with hst2
  have hproj2 : (SVC.ShortenURL st1 base u2 U2 g2).1 = st2 := by rw [hshorten2]
  have hg1g2 : g1 ≠ g2 := by
    intro hc
    rw [hproj1] at hfresh2
    rw [hc] at hst1stf
    rw [hst1stf] at hfresh2
    exact Option.noConfusion hfresh2
  have hst2ft : st2.FullToShort u1 = some g1 := by
    rw [hst2, (JSONDB.saveUserUrls_preserves U2 [u2] _).2.1]
    show JSONDB.upd st1.FullToShort u2 g2 u1 = some g1
    rw [JSONDB.upd_ne st1.FullToShort g2 hne]
    rw [hst1, (JSONDB.saveUserUrls_preserves U1 [u1] _).2.1]
    show JSONDB.upd st0.FullToShort u1 g1 u1 = some g1
    rw [JSONDB.upd_same]
  have hshorten3 := SVC.shortenURL_found st2 base u1 U3 g3 g1 hst2ft
  refine ⟨by rw [hshorten1], by rw [hproj1, hshorten2], hg1g2,
    by rw [hproj1, hproj2, hshorten3], ?_⟩
  rw [hproj1, hproj2, hshorten3]
  show U3 ∈ ((JSONDB.SaveUserUrls st2 U3 [u1]).UrlsToUsersIdsMap u1).getD []
  exact JSONDB.saveUserUrls_single_mem st2 U3 u1

/-- Witness for C3 on the empty store. -/
theorem claim3_witness :
    (SVC.ShortenURL JSONDB.emptyCache ("http://b") ("https://e.com/1") ("U1") ("k1")).2
      = (SVC.GetShortURL ("http://b") ("k1"), none)
    ∧ (SVC.ShortenURL
        (SVC.ShortenURL JSONDB.emptyCache ("http://b") ("https://e.com/1") ("U1") ("k1")).1
        ("http://b") ("https://e.com/2") ("U2") ("k2")).2
      = (SVC.GetShortURL ("http://b") ("k2"), none)
    ∧ ("k1" : String) ≠ ("k2")
    ∧ (SVC.ShortenURL
        (SVC.ShortenURL
          (SVC.ShortenURL JSONDB.emptyCache ("http://b") ("https://e.com/1") ("U1") ("k1")).1
          ("http://b") ("https://e.com/2") ("U2") ("k2")).1
        ("http://b") ("https://e.com/1") ("U3") ("k3")).2
      = (SVC.GetShortURL ("http://b") ("k1"), some GoError.errConflict)
    ∧ ("U3" : String) ∈ ((SVC.ShortenURL
        (SVC.ShortenURL
          (SVC.ShortenURL JSONDB.emptyCache ("http://b") ("https://e.com/1") ("U1") ("k1")).1
          ("http://b") ("https://e.com/2") ("U2") ("k2")).1
        ("http://b") ("https://e.com/1") ("U3") ("k3")).1.UrlsToUsersIdsMap
          ("https://e.com/1")).getD [] :=
  claim3_uniqueness_and_conflict JSONDB.emptyCache ("http://b")
    ("https://e.com/1") ("https://e.com/2") ("U1") ("U2") ("U3") ("k1") ("k2") ("k3")
    (by decide) (by decide) (by decide) (by decide)

namespace SVC

theorem trimRightSlash_eq_self (base : String) (hb : base ≠ "")
    (hbs : base.data.getLast? ≠ some ('/')) : trimRightSlash base = base := by
  cases hrev : base.data.reverse with
  | nil =>
      exfalso
      apply hb
      have hdata : base.data = [] := by
        have h2 := congrArg List.reverse hrev
        simpa using h2
      exact String.ext (by simpa using hdata)
  | cons c rest =>
      have hlast : base.data.getLast? = some c := by
        rw [← List.head?_reverse, hrev]
        rfl
      have hc : ¬ c = '/' := fun hcc => hbs (by rw [hlast, hcc])
      rw [trimRightSlash, hrev, List.dropWhile_cons_of_neg (by simpa using hc)]
      rw [← hrev, List.reverse_reverse]

theorem trimPrefixGo_of_data (s p : String) (rest : List Char)
    (h : s.data = p.data ++ rest) : trimPrefixGo s p = String.mk rest := by
  have hpre : p.data.isPrefixOf s.data = true := by
    rw [List.isPrefixOf_iff_prefix, h]
    exact List.prefix_append p.data rest
  rw [trimPrefixGo, if_pos hpre, h, List.drop_left]

end SVC

namespace JSONDB

theorem inverse_of_eq_maps (st st' : Cache)
    (h1 : st'.ShortToFull = st.ShortToFull) (h2 : st'.FullToShort = st.FullToShort)
    (hinv : Inverse st) : Inverse st' := by
  rw [Inverse, h1, h2]
  exact hinv

theorem insert_preserves_inverse (st : Cache) (s f : String)
    (hs : st.ShortToFull s = none) (hf : st.FullToShort f = none)
    (hinv : Inverse st) : Inverse (InsertURLMapping st s f) := by
  constructor
  · intro s' f' h
    show upd st.FullToShort f s f' = some s'
    by_cases hss : s' = s
    · subst hss
      rw [show (InsertURLMapping st s' f).ShortToFull s' = some f from upd_same _ _ _] at h
      cases h
      rw [upd_same]
    · rw [show (InsertURLMapping st s f).ShortToFull s' = st.ShortToFull s' from
        upd_ne _ _ hss] at h
      have hff : f' ≠ f := by
        intro hc
        subst hc
        rw [hinv.1 s' f' h] at hf
        exact Option.noConfusion hf
      rw [upd_ne _ _ hff]
      exact hinv.1 s' f' h
  · intro f' s' h
    show upd st.ShortToFull s f s' = some f'
    by_cases hff : f' = f
    · subst hff
      rw [show (InsertURLMapping st s f').FullToShort f' = some s from upd_same _ _ _] at h
      cases h
      rw [upd_same]
    · rw [show (InsertURLMapping st s f).FullToShort f' = st.FullToShort f' from
        upd_ne _ _ hff] at h
      have hss : s' ≠ s := by
        intro hc
        subst hc
        rw [hinv.2 f' s' h] at hs
        exact Option.noConfusion hs
      rw [upd_ne _ _ hss]
      exact hinv.2 f' s' h

theorem freshPairs_preserves_inverse (st : Cache) (m : List (String × String))
    (hfp : FreshPairs st m) (hinv : Inverse st) :
    Inverse (SaveNewFullsAndShorts st m) := by
  induction hfp with
  | nil st => exact hinv
  | cons st p ps hs hf _ ih =>
      exact ih (insert_preserves_inverse st p.2 p.1 hs hf hinv)

theorem applyOp_preserves_inverse (st : Cache) (op : JSONOp)
    (hop : OpFresh st op) (hinv : Inverse st) : Inverse (applyOp st op) := by
  cases op with
  | insertURLMapping s f => exact insert_preserves_inverse st s f hop.1 hop.2 hinv
  | saveNewFullsAndShorts m => exact freshPairs_preserves_inverse st m hop hinv
  | saveUserUrls uid urls =>
      exact inverse_of_eq_maps st _ (saveUserUrls_preserves uid urls st).1
        (saveUserUrls_preserves uid urls st).2.1 hinv
  | removeUsersUrls m =>
      exact inverse_of_eq_maps st _ (removeUsersUrls_preserves m st).1
        (removeUsersUrls_preserves m st).2.1 hinv

end JSONDB

/-- C9 counterexample: the invariant fails for an unconstrained operation
sequence — inserting a second short key for an already-mapped full URL
(`InsertURLMapping "s1" "f"` then `InsertURLMapping "s2" "f"`) leaves
`ShortToFull` with the orphaned entry `"s1" ↦ "f"` while `FullToShort "f"`
points to `"s2"`, so the two maps are not mutual inverses. -/
theorem claim9_counterexample :
    (JSONDB.applyOps JSONDB.emptyCache
        [JSONDB.JSONOp.insertURLMapping ("s1") ("f"),
          JSONDB.JSONOp.insertURLMapping ("s2") ("f")]).ShortToFull ("s1") = some ("f")
    ∧ (JSONDB.applyOps JSONDB.emptyCache
        [JSONDB.JSONOp.insertURLMapping ("s1") ("f"),
          JSONDB.JSONOp.insertURLMapping ("s2") ("f")]).FullToShort ("f") = some ("s2")
    ∧ ¬ JSONDB.Inverse (JSONDB.applyOps JSONDB.emptyCache
        [JSONDB.JSONOp.insertURLMapping ("s1") ("f"),
          JSONDB.JSONOp.insertURLMapping ("s2") ("f")]) := by
  refine ⟨by decide, by decide, ?_⟩
  intro hinv
  have h := hinv.1 ("s1") ("f") (by decide)
  have h2 : (JSONDB.applyOps JSONDB.emptyCache
      [JSONDB.JSONOp.insertURLMapping ("s1") ("f"),
        JSONDB.JSONOp.insertURLMapping ("s2") ("f")]).FullToShort ("f") = some ("s2") := by
    decide
  exact absurd (h.symm.trans h2) (by decide)

/-- C9 as amended: after any sequence of store operations in which every
`InsertURLMapping` and every pair inserted by `SaveNewFullsAndShorts`
introduces only a short key and a full URL that are absent from the store at
that moment (which the service layer guarantees by checking first and
generating fresh UUID keys), the `ShortToFull` and `FullToShort` maps remain
mutual inverses; `SaveUserUrls` and `RemoveUsersUrls` never disturb them. -/
theorem claim9_inverse_preserved (st : JSONDB.Cache) (ops : List JSONDB.JSONOp)
    (hgood : JSONDB.GoodOps st ops) (hinv : JSONDB.Inverse st) :
    JSONDB.Inverse (JSONDB.applyOps st ops) := by
  induction hgood with
  | nil st => exact hinv
  | cons st op ops hop _ ih =>
      exact ih (JSONDB.applyOp_preserves_inverse st op hop hinv)

/-- Witness for the amended C9: a concrete four-operation trace (an insert, a
batch insert, an ownership save and a soft delete) starting from the empty
cache keeps the maps mutual inverses. -/
theorem claim9_witness :
    JSONDB.Inverse (JSONDB.applyOps JSONDB.emptyCache
      [JSONDB.JSONOp.insertURLMapping ("s1") ("f1"),
        JSONDB.JSONOp.saveNewFullsAndShorts [(("f2"), ("s2"))],
        JSONDB.JSONOp.saveUserUrls ("U1") [("f1")],
        JSONDB.JSONOp.removeUsersUrls [(("U1"), [("s1")])]]) :=
  claim9_inverse_preserved JSONDB.emptyCache
    [JSONDB.JSONOp.insertURLMapping ("s1") ("f1"),
      JSONDB.JSONOp.saveNewFullsAndShorts [(("f2"), ("s2"))],
      JSONDB.JSONOp.saveUserUrls ("U1") [("f1")],
      JSONDB.JSONOp.removeUsersUrls [(("U1"), [("s1")])]]
    (JSONDB.GoodOps.cons _ _ _ ⟨by decide, by decide⟩
      (JSONDB.GoodOps.cons _ _ _
        (JSONDB.FreshPairs.cons _ _ _ (by decide) (by decide) (JSONDB.FreshPairs.nil _))
        (JSONDB.GoodOps.cons _ _ _ trivial
          (JSONDB.GoodOps.cons _ _ _ trivial (JSONDB.GoodOps.nil _)))))
    ⟨fun s f h => Option.noConfusion h, fun f s h => Option.noConfusion h⟩

/-- C4 counterexample: the claim states that after a failed timer-tick flush
the accumulated batch is cleared anyway.  In the code the error branch
executes `continue` and skips the `tasks = nil` statement, so on a concrete
one-task batch with a failing `RemoveUsersUrls` the batch after the tick is
the same non-empty batch, not the cleared one. -/
theorem claim4_counterexample :
    Remover.step (fun _ => some GoError.uniqueViolation)
        [Remover.Task.mk ("U1") ("k1")] Remover.Event.tick
      = ([Remover.Task.mk ("U1") ("k1")], [GoError.uniqueViolation])
    ∧ [Remover.Task.mk ("U1") ("k1")] ≠ ([] : List Remover.Task) := by
  constructor
  · rfl
  · intro h
    exact List.noConfusion h

/-- C4 as amended: when a timer-tick flush of a non-empty batch fails, the
error is pushed to the error-reporting channel and the batch is retained
unchanged (`tasks` is cleared only on success); the retained batch is
therefore retried — a later tick whose flush succeeds sends exactly the same
grouped batch and only then clears it. -/
theorem claim4_flush_failure_retains_batch
    (tasks : List Remover.Task)
    (remove remove2 : List (String × List String) → Option GoError) (e : GoError)
    (hne : tasks ≠ [])
    (hfail : remove (Remover.collectUrlsByUser tasks) = some e)
    (hok : remove2 (Remover.collectUrlsByUser tasks) = none) :
    Remover.step remove tasks Remover.Event.tick = (tasks, [e])
    ∧ Remover.step remove2 tasks Remover.Event.tick = ([], []) := by
  constructor
  · simp [Remover.step, hne, hfail]
  · simp [Remover.step, hne, hok]

/-- Witness for the amended C4. -/
theorem claim4_witness :
    Remover.step (fun _ => some GoError.uniqueViolation)
        [Remover.Task.mk ("U1") ("k1")] Remover.Event.tick
      = ([Remover.Task.mk ("U1") ("k1")], [GoError.uniqueViolation])
    ∧ Remover.step (fun _ => none) [Remover.Task.mk ("U1") ("k1")] Remover.Event.tick
      = ([], []) :=
  claim4_flush_failure_retains_batch [Remover.Task.mk ("U1") ("k1")]
    (fun _ => some GoError.uniqueViolation) (fun _ => none) GoError.uniqueViolation
    (by decide) (by decide) (by decide)

/-- C5, code evaluation at the failing input: user `U1` owns
`https://example.com/1`, which has been soft-deleted by `RemoveUsersUrls`;
`JSONDB.GetUserUrls` nevertheless still returns it (the code never consults
`UrlsToIsDeletedMap`), and the raw-SQL `PostgresDB.GetUserUrls` join likewise
returns the deleted row (the query has no `is_deleted` filter). -/
theorem claim5_code_evaluation :
    (JSONDB.RemoveUsersUrls
        (JSONDB.SaveUserUrls
          (JSONDB.InsertURLMapping JSONDB.emptyCache ("k1") ("https://example.com/1"))
          ("U1") [("https://example.com/1")])
        [(("U1"), [("k1")])]).UrlsToIsDeletedMap ("https://example.com/1") = some true
    ∧ JSONDB.GetUserUrls
        (JSONDB.RemoveUsersUrls
          (JSONDB.SaveUserUrls
            (JSONDB.InsertURLMapping JSONDB.emptyCache ("k1") ("https://example.com/1"))
            ("U1") [("https://example.com/1")])
          [(("U1"), [("k1")])])
        ("U1") none
      = [UserURL.mk ("k1") ("https://example.com/1")]
    ∧ PG.GetUserUrls
        (PG.PgState.mk [PG.Row.mk ("https://example.com/1") ("k1") true]
          [(("U1"), ("https://example.com/1"))])
        ("U1") none
      = [UserURL.mk ("k1") ("https://example.com/1")] := by
  refine ⟨by decide, by decide, by decide⟩

/-- C6, code evaluation at the failing input: calling `JSONDB.SaveUserUrls`
twice with the same `(user, url)` arguments appends a duplicate ownership
row — the user's url list becomes `[u, u]` instead of `[u]`, and
`GetUserUrls` returns the entry twice — while the relational backend's
`ON CONFLICT DO UPDATE` upsert is idempotent on the same input. -/
theorem claim6_code_evaluation :
    (JSONDB.SaveUserUrls JSONDB.emptyCache ("U1")
        [("https://example.com/1")]).UsersIdsToUrlsMap ("U1")
      = some [("https://example.com/1")]
    ∧ (JSONDB.SaveUserUrls
        (JSONDB.SaveUserUrls JSONDB.emptyCache ("U1") [("https://example.com/1")])
        ("U1") [("https://example.com/1")]).UsersIdsToUrlsMap ("U1")
      = some [("https://example.com/1"), ("https://example.com/1")]
    ∧ JSONDB.GetUserUrls
        (JSONDB.SaveUserUrls
          (JSONDB.SaveUserUrls
            (JSONDB.InsertURLMapping JSONDB.emptyCache ("k1") ("https://example.com/1"))
            ("U1") [("https://example.com/1")])
          ("U1") [("https://example.com/1")])
        ("U1") none
      = [UserURL.mk ("k1") ("https://example.com/1"),
          UserURL.mk ("k1") ("https://example.com/1")]
    ∧ PG.SaveUserUrls
        (PG.SaveUserUrls (PG.PgState.mk [] []) ("U1") [("https://example.com/1")])
        ("U1") [("https://example.com/1")]
      = PG.SaveUserUrls (PG.PgState.mk [] []) ("U1") [("https://example.com/1")] := by
  refine ⟨by decide, by decide, by decide, by decide⟩

/-- C7, code evaluation at the failing input: the raw-SQL
`PostgresDB.SaveNewFullsAndShorts` is a plain `INSERT` with no `ON CONFLICT`
clause, so replaying the same one-element map against the store that already
holds the row raises a unique-constraint violation instead of silently
ignoring the existing row; the JSONDB backend's replay, by contrast, leaves
the directional maps unchanged. -/
theorem claim7_code_evaluation :
    PG.SaveNewFullsAndShorts (PG.PgState.mk [] []) [(("https://example.com/1"), ("k1"))]
      = Except.ok (PG.PgState.mk [PG.Row.mk ("https://example.com/1") ("k1") false] [])
    ∧ PG.SaveNewFullsAndShorts
        (PG.PgState.mk [PG.Row.mk ("https://example.com/1") ("k1") false] [])
        [(("https://example.com/1"), ("k1"))]
      = Except.error GoError.uniqueViolation
    ∧ (JSONDB.SaveNewFullsAndShorts
        (JSONDB.SaveNewFullsAndShorts JSONDB.emptyCache [(("https://example.com/1"), ("k1"))])
        [(("https://example.com/1"), ("k1"))]).ShortToFull ("k1")
      = (JSONDB.SaveNewFullsAndShorts JSONDB.emptyCache
          [(("https://example.com/1"), ("k1"))]).ShortToFull ("k1") := by
  refine ⟨by rfl, by rfl, by decide⟩

/-- C8: ownership non-escalation — a `RemoveUsersUrls` request by a user who
is not a verified owner of the full URL behind the short key does not mark
the mapping deleted: the JSON/in-memory backend leaves the store completely
unchanged, and the relational backend leaves the row unchanged. -/
theorem claim8_remove_nonowner_no_escalation
    (st : JSONDB.Cache) (short A : String)
    (stp : PG.PgState) (r : PG.Row) (shortP A2 : String)
    (hA : A ∉ (st.UrlsToUsersIdsMap ((st.ShortToFull short).getD (""))).getD [])
    (hfind : stp.urls.find? (fun row => row.short == shortP) = some r)
    (hnot : (A2, r.full) ∉ stp.users_urls) :
    JSONDB.RemoveUsersUrls st [(A, [short])] = st
    ∧ (PG.RemoveUsersUrls stp [(A2, [shortP])]).urls.find? (fun row => row.short == shortP)
        = some r := by
  refine ⟨JSONDB.removeUsersUrls_single_nonowner st short A hA, ?_⟩
  have hpairs : PG.getUsersUrlsForRemoving [(A2, [shortP])] = [(A2, shortP)] := by
    simp [PG.getUsersUrlsForRemoving]
  have hmark : PG.markCond stp.users_urls [(A2, shortP)] r = false := by
    rw [Bool.eq_false_iff]
    intro hcontra
    rw [PG.markCond, List.any_eq_true] at hcontra
    obtain ⟨uu, huu, hcond⟩ := hcontra
    simp only [List.any_cons, List.any_nil, Bool.or_false, Bool.and_eq_true, beq_iff_eq]
      at hcond
    exact hnot (by
      have huu2 : uu = (A2, r.full) := by
        obtain ⟨h1, h2, _⟩ := hcond
        cases uu
        simp_all
      rw [huu2] at huu
      exact huu)
  set g : PG.Row → PG.Row := fun row =>
    if PG.markCond stp.users_urls [(A2, shortP)] row then { row with is_deleted := true }
    else row with hg
  have hgshort : ∀ row, (g row).short = row.short := by
    intro row
    by_cases h : PG.markCond stp.users_urls [(A2, shortP)] row = true
    · simp [hg, h]
    · simp [hg, h]
  have hrem : PG.RemoveUsersUrls stp [(A2, [shortP])]
      = { stp with urls := stp.urls.map g } := by
    rw [PG.RemoveUsersUrls]
    simp only [hpairs]
    rfl
  rw [hrem]
  show (stp.urls.map g).find? (fun row => row.short == shortP) = some r
  rw [PG.find?_short_map stp.urls g hgshort shortP, hfind]
  have hgr : g r = r := by simp [hg, hmark]
  rw [Option.map_some', hgr]

/-- Witness for C8: user `U2` requests deletion of a short key whose URL is
owned only by `U1`; nothing is marked. -/
theorem claim8_witness :
    JSONDB.RemoveUsersUrls
        (JSONDB.SaveUserUrls
          (JSONDB.InsertURLMapping JSONDB.emptyCache ("k1") ("https://example.com/1"))
          ("U1") [("https://example.com/1")])
        [(("U2"), [("k1")])]
      = JSONDB.SaveUserUrls
          (JSONDB.InsertURLMapping JSONDB.emptyCache ("k1") ("https://example.com/1"))
          ("U1") [("https://example.com/1")]
    ∧ (PG.RemoveUsersUrls
        (PG.PgState.mk [PG.Row.mk ("https://example.com/1") ("k1") false]
          [(("U1"), ("https://example.com/1"))])
        [(("U2"), [("k1")])]).urls.find? (fun row => row.short == ("k1"))
        = some (PG.Row.mk ("https://example.com/1") ("k1") false) :=
  claim8_remove_nonowner_no_escalation
    (JSONDB.SaveUserUrls
      (JSONDB.InsertURLMapping JSONDB.emptyCache ("k1") ("https://example.com/1"))
      ("U1") [("https://example.com/1")])
    ("k1") ("U2")
    (PG.PgState.mk [PG.Row.mk ("https://example.com/1") ("k1") false]
      [(("U1"), ("https://example.com/1"))])
    (PG.Row.mk ("https://example.com/1") ("k1") false) ("k1") ("U2")
    (by decide) (by decide) (by decide)

/-- Witness for C1 at a concrete store. -/
theorem claim1_witness :
    (JSONDB.FindFullByShort
        (JSONDB.RemoveUsersUrls
          (JSONDB.SaveUserUrls
            (JSONDB.InsertURLMapping JSONDB.emptyCache ("k1") ("https://example.com/1"))
            ("U1") [("https://example.com/1")])
          [(("U1"), [("k1")])]) ("k1")
        = (("https://example.com/1"), true, some GoError.errURLMarkedAsDeleted)
      ∧ (JSONDB.RemoveUsersUrls
          (JSONDB.SaveUserUrls
            (JSONDB.InsertURLMapping JSONDB.emptyCache ("k1") ("https://example.com/1"))
            ("U1") [("https://example.com/1")])
          [(("U1"), [("k1")])]).ShortToFull ("k1") = some ("https://example.com/1"))
    ∧ PG.FindFullByShort
        (PG.RemoveUsersUrls
          (PG.PgState.mk [PG.Row.mk ("https://example.com/1") ("k1") false]
            [(("U1"), ("https://example.com/1"))])
          [(("U1"), [("k1")])]) ("k1")
        = (("https://example.com/1"), true, some GoError.errURLMarkedAsDeleted) :=
  claim1_findFullByShort_after_remove
    (JSONDB.SaveUserUrls
      (JSONDB.InsertURLMapping JSONDB.emptyCache ("k1") ("https://example.com/1"))
      ("U1") [("https://example.com/1")])
    ("k1") ("https://example.com/1") ("U1")
    (PG.PgState.mk [PG.Row.mk ("https://example.com/1") ("k1") false]
      [(("U1"), ("https://example.com/1"))])
    (PG.Row.mk ("https://example.com/1") ("k1") false) ("k1") ("U1")
    (by decide) (by decide) (by decide) (by decide)

/-- C10: `GetShortURLKey` is a left inverse of `GetShortURL` — for a
non-empty short key with no leading slash and a non-empty base with no
trailing slash, stripping the base from the formatted short URL recovers the
key exactly; and `GetShortURLKey` returns the empty string whenever the short
URL or the base is empty. -/
theorem claim10_getShortURLKey_left_inverse (base k : String)
    (hb : base ≠ "")
    (hbs : base.data.getLast? ≠ some ('/'))
    (hk : k ≠ "")
    (hks : k.data.head? ≠ some ('/')) :
    SVC.GetShortURLKey base (SVC.GetShortURL base k) = k
    ∧ SVC.GetShortURLKey base ("") = ""
    ∧ (∀ s, SVC.GetShortURLKey ("") s = "") := by
  refine ⟨?_, by simp [SVC.GetShortURLKey], fun s => by simp [SVC.GetShortURLKey]⟩
  have hne : SVC.GetShortURL base k ≠ "" := by
    rw [SVC.GetShortURL]
    intro hcc
    have hdata : ((base ++ "/") ++ k).data = [] := by rw [hcc]
    rw [String.data_append, String.data_append] at hdata
    rcases List.append_eq_nil.mp hdata with ⟨h1, _⟩
    rcases List.append_eq_nil.mp h1 with ⟨_, h4⟩
    exact absurd h4 (by decide)
  rw [SVC.GetShortURLKey, if_neg (not_or.mpr ⟨hne, hb⟩)]
  rw [SVC.trimRightSlash_eq_self base hb hbs]
  have h1 : SVC.trimPrefixGo (SVC.GetShortURL base k) base = String.mk ('/' :: k.data) := by
    apply SVC.trimPrefixGo_of_data
    rw [SVC.GetShortURL, String.data_append, String.data_append, List.append_assoc]
    rfl
  rw [h1]
  have h2 : SVC.trimPrefixGo (String.mk ('/' :: k.data)) ("/") = String.mk k.data := by
    apply SVC.trimPrefixGo_of_data
    rfl
  rw [h2]

/-- Witness for C10 at a concrete base and key. -/
theorem claim10_witness :
    SVC.GetShortURLKey ("http://localhost:8080") (SVC.GetShortURL ("http://localhost:8080") ("k1"))
        = ("k1")
    ∧ SVC.GetShortURLKey ("http://localhost:8080") ("") = ""
    ∧ (∀ s, SVC.GetShortURLKey ("") s = "") :=
  claim10_getShortURLKey_left_inverse ("http://localhost:8080") ("k1")
    (by decide) (by decide) (by decide) (by decide)
